import Mathlib

/-!
A shallow embedding of the grotto telemetry agent (Go) in Lean 4.

The repository holds near-identical revisions of one program: `main.go`
(the complete agent) and two incomplete revisions. The sampler definitions
below follow the latest revision (`src/unnamed/part_000`: five gauges per
cycle including the `usage` gauge, a whitespace `split` helper, a
configured sampling period); the batcher, sender payload and constants
follow `main.go`. Where a revision's behaviour differs in a way a claim
depends on, the doc comment of the definition says which file it embeds.

Go `float64` values are modelled by `GoFloat`: a rational for the finite
case plus NaN and the two infinities, with IEEE-754 zero-divisor rules.
All divisions in this program have integer operands, so finiteness and
the sign/NaN classification are exact; the finite quotient is modelled by
the exact rational (rounding to the nearest double is well below every
tolerance the spec states). Go `int` counters are modelled by `Int`
(counter values parsed from `/proc/stat` are far from 64-bit overflow,
and `strconv.Atoi` rejects out-of-range literals).
-/

namespace Grotto

/-- Go `float64` restricted to the values this program can produce:
finite values (held exactly as rationals), `NaN`, `+Inf`, `-Inf`. -/
inductive GoFloat where
  | fin (q : ℚ)
  | nan
  | inf
  | ninf
deriving DecidableEq

/-- Go float64 division `float64(a) / float64(b)` for integer `a`, `b`:
IEEE-754 gives NaN for `0/0`, a signed infinity for `a/0` with `a ≠ 0`,
and the (rounded) quotient otherwise, modelled here exactly. -/
def goDiv (a b : Int) : GoFloat :=
  if b = 0 then
    if a = 0 then GoFloat.nan
    else if 0 < a then GoFloat.inf
    else GoFloat.ninf
  else GoFloat.fin ((a : ℚ) / (b : ℚ))

/-- Whether a `GoFloat` is a finite (non-NaN, non-infinite) value. -/
def GoFloat.isFinite : GoFloat → Bool
  | GoFloat.fin _ => true
  | _ => false

/-- Struct `gauge` of `main.go`: a one-off reading sent to Librato. -/
structure gauge where
  Name : String
  Description : String := ""
  DisplayName : String := ""
  MeasureTime : Int
  Value : GoFloat
  Source : String := ""
deriving DecidableEq

/-- Struct `cpuStat`: per-cpu counters plus a line total and epoch. -/
structure cpuStat where
  name : String
  user : Int
  nice : Int
  system : Int
  idle : Int
  total : Int
  epoch : Int
deriving DecidableEq

/-- Go zero value `*new(cpuStat)`: every field zero / empty. -/
def zeroStat : cpuStat :=
  { name := "", user := 0, nice := 0, system := 0, idle := 0, total := 0, epoch := 0 }

/-- Method `percentage` of `cpuStat`: `float64(of) / float64(s.total)`. -/
def cpuStat.percentage (s : cpuStat) (of : Int) : GoFloat :=
  goDiv of s.total

/-- Method `usagePercentage` (part_000): `(user + nice + system) / total`. -/
def cpuStat.usagePercentage (s : cpuStat) : GoFloat :=
  s.percentage (s.user + s.nice + s.system)

/-- Method `userPercentage`: `user / total`. -/
def cpuStat.userPercentage (s : cpuStat) : GoFloat :=
  s.percentage s.user

/-- Method `nicePercentage`: `nice / total`. -/
def cpuStat.nicePercentage (s : cpuStat) : GoFloat :=
  s.percentage s.nice

/-- Method `systemPercentage`: `system / total`. -/
def cpuStat.systemPercentage (s : cpuStat) : GoFloat :=
  s.percentage s.system

/-- Method `idlePercentage`: `idle / total`. -/
def cpuStat.idlePercentage (s : cpuStat) : GoFloat :=
  s.percentage s.idle

/-- Method `difference`: field-wise
`other - s`, keeping `other`'s name and epoch. -/
def cpuStat.difference (s other : cpuStat) : cpuStat :=
  { name := other.name
    epoch := other.epoch
    user := other.user - s.user
    nice := other.nice - s.nice
    system := other.system - s.system
    idle := other.idle - s.idle
    total := other.total - s.total }

/-- Method `metrics` of the latest revision (part_000,
lines 46-58): five gauges named `<name>-user`, `<name>-nice`,
`<name>-system`, `<name>-idle`, `<name>-usage`, in that order, all with
`MeasureTime = s.epoch` and `Source = hostname`. (`main.go`'s older
revision of this method emits only the first four.) -/
def cpuStat.metrics (hostname : String) (s : cpuStat) : List gauge :=
  [ { Name := s.name ++ "-" ++ "user", MeasureTime := s.epoch,
      Value := s.userPercentage, Source := hostname }
  , { Name := s.name ++ "-" ++ "nice", MeasureTime := s.epoch,
      Value := s.nicePercentage, Source := hostname }
  , { Name := s.name ++ "-" ++ "system", MeasureTime := s.epoch,
      Value := s.systemPercentage, Source := hostname }
  , { Name := s.name ++ "-" ++ "idle", MeasureTime := s.epoch,
      Value := s.idlePercentage, Source := hostname }
  , { Name := s.name ++ "-" ++ "usage", MeasureTime := s.epoch,
      Value := s.usagePercentage, Source := hostname } ]

/-! ## Parsing (`readCpuStats`, `atoi`, `split`) -/

/-- Numeric value of a run of decimal digits, most significant first,
accumulated onto `acc`; `none` if any character is not a digit. -/
def digitsVal (acc : Nat) : List Char → Option Nat
  | [] => some acc
  | c :: cs => if c.isDigit then digitsVal (acc * 10 + (c.toNat - 48)) cs else none

/-- Function `atoi` (a proxy for `strconv.Atoi` with a rewrapped error):
an optional sign followed by at least one decimal digit; anything else is
an error. The 64-bit range check of `strconv.Atoi` is not modelled (all
inputs of interest are far below it). -/
def atoi (str : String) : Except String Int :=
  let parsed : Option Int :=
    match str.data with
    | [] => none
    | c :: cs =>
      if c = '-' then
        match cs with
        | [] => none
        | _ => (digitsVal 0 cs).map (fun n => -(n : Int))
      else if c = '+' then
        match cs with
        | [] => none
        | _ => (digitsVal 0 cs).map (fun n => (n : Int))
      else (digitsVal 0 str.data).map (fun n => (n : Int))
  match parsed with
  | some v => Except.ok v
  | none => Except.error ("Could not parse " ++ str ++ " to int")

/-- Splits a character list into maximal runs of non-whitespace
characters; `acc` holds the (reversed) run being built. -/
def fieldsAux : List Char → List Char → List (List Char)
  | [], acc => if acc.isEmpty then [] else [acc.reverse]
  | c :: cs, acc =>
    if c.isWhitespace then
      if acc.isEmpty then fieldsAux cs [] else acc.reverse :: fieldsAux cs []
    else fieldsAux cs (c :: acc)

/-- Modelled from the spec: the helper `split` called by `readCpuStats`
in the latest revision (part_000 line 121) is not among the provided
source files; the spec says parsing must "split on whitespace", so it is
modelled as splitting into maximal whitespace-separated tokens (the
behaviour of Go's `strings.Fields`). The older `main.go` revision uses
`strings.Split(text, " ")` instead, which yields empty tokens between
consecutive spaces. -/
def split (s : String) : List String :=
  (fieldsAux s.data []).map (fun cs => String.mk cs)

/-- Model of `strings.HasPrefix`. -/
def strHasPre (s pre : String) : Bool :=
  pre.data.isPrefixOf s.data

/-- Index switch of the token loop of `readCpuStats`: token index 0-3
binds user/nice/system/idle; any later index binds no named field. -/
def setField (index : Nat) (value : Int) (stat : cpuStat) : cpuStat :=
  match index with
  | 0 => { stat with user := value }
  | 1 => { stat with nice := value }
  | 2 => { stat with system := value }
  | 3 => { stat with idle := value }
  | _ => stat

/-- Body of the indexed token loop of `readCpuStats`: for each counter
token, parse it with `atoi` (failure aborts the whole read), bind the
token at index 0/1/2/3 to user/nice/system/idle via `setField`, and
always add the value into `total`. -/
def fillStat : Nat → List String → cpuStat → Except String cpuStat
  | _, [], stat => Except.ok stat
  | index, v :: rest, stat =>
    match atoi v with
    | Except.error e => Except.error e
    | Except.ok value =>
      let stat1 := setField index value stat
      fillStat (index + 1) rest { stat1 with total := stat1.total + value }

/-- Function `readCpuStats` of the latest revision, over the list of
lines read from `/proc/stat`: each line is split into tokens, the first
token is the identifier, and lines whose identifier starts with `cpu`
are parsed into a `cpuStat` (any `atoi` failure aborts the entire read).
The per-line `time.Now().Unix()` calls are abstracted into the single
`epoch` argument. Go indexes `tokens[0]`; on an empty token list this
model reads the identifier as `""` (such a line is skipped), a case Go
never reaches on `/proc/stat` content. -/
def readCpuStats (epoch : Int) : List String → Except String (List cpuStat)
  | [] => Except.ok []
  | line :: rest =>
    let tokens := split line
    let cpuName := tokens.headD ""
    if strHasPre cpuName "cpu" then
      match fillStat 0 tokens.tail { zeroStat with name := cpuName, epoch := epoch } with
      | Except.error e => Except.error e
      | Except.ok stat =>
        match readCpuStats epoch rest with
        | Except.error e => Except.error e
        | Except.ok stats => Except.ok (stat :: stats)
    else readCpuStats epoch rest

/-! ## The sampler (`monitorCpuUsage`) -/

/-- Lookup in the Go map `lookup map[string]cpuStat`. -/
def mapFind : List (String × cpuStat) → String → Option cpuStat
  | [], _ => none
  | (k, v) :: rest, key => if k = key then some v else mapFind rest key

/-- Insertion (or replacement) in the Go map `lookup map[string]cpuStat`. -/
def mapInsert : List (String × cpuStat) → String → cpuStat → List (String × cpuStat)
  | [], key, v => [(key, v)]
  | (k, w) :: rest, key, v =>
    if k = key then (key, v) :: rest else (k, w) :: mapInsert rest key v

/-- One iteration of the per-stat loop body of `monitorCpuUsage`
(part_000 lines 85-98, identical in `main.go` but for the four-gauge
`metrics`): if the id has no baseline, store the zero value
`*new(cpuStat)` as its baseline and emit nothing; otherwise emit the
metrics of `cumulative.difference(&stat)` and store `stat`. Returns the
updated map and the gauges sent on the channel for this stat. -/
def processStat (hostname : String) (lookup : List (String × cpuStat)) (stat : cpuStat) :
    List (String × cpuStat) × List gauge :=
  match mapFind lookup stat.name with
  | none => (mapInsert lookup stat.name zeroStat, [])
  | some cumulative =>
    (mapInsert lookup stat.name stat, (cumulative.difference stat).metrics hostname)

/-- One sampling cycle of `monitorCpuUsage`: the per-stat loop over the
stats of one successful `readCpuStats`. The gauges of each iteration are
tagged with the name of the stat that produced them; the flat channel
stream of the cycle is the concatenation of the tagged groups in order. -/
def processCycle (hostname : String) (lookup : List (String × cpuStat)) :
    List cpuStat → List (String × cpuStat) × List (String × List gauge)
  | [] => (lookup, [])
  | stat :: rest =>
    let p := processStat hostname lookup stat
    let r := processCycle hostname p.1 rest
    (r.1, (stat.name, p.2) :: r.2)

/-- Repeated sampling cycles of `monitorCpuUsage`, threading the
baseline map; returns the final map and the tagged emissions of each
cycle in order. -/
def runCycles (hostname : String) (lookup : List (String × cpuStat)) :
    List (List cpuStat) → List (String × cpuStat) × List (List (String × List gauge))
  | [] => (lookup, [])
  | c :: cs =>
    let p := processCycle hostname lookup c
    let r := runCycles hostname p.1 cs
    (r.1, p.2 :: r.2)

/-! ## The batcher (`startMetricsSender`, `libratoPayload`) -/

/-- Values carried by the `chan interface{}` metrics channel: either a
`gauge` or some other dynamic type, represented by its type name (the
only thing the program inspects about it, via `reflect.TypeOf`). -/
inductive Metric where
  | g (x : gauge)
  | other (typeName : String)
deriving DecidableEq

/-- Struct `libratoPayload`: the ordered gauges of one batching window. -/
structure libratoPayload where
  Gauges : List gauge
deriving DecidableEq

/-- Method `addMetric` of `libratoPayload`: a type switch that appends a
`gauge` and returns no error, and returns an error (leaving the payload
unchanged) for any other dynamic type. -/
def addMetric (p : libratoPayload) : Metric → Except String libratoPayload
  | Metric.g x => Except.ok { Gauges := p.Gauges ++ [x] }
  | Metric.other typeName => Except.error ("Unsupported metric: " ++ typeName)

/-- Method `size` of `libratoPayload`. -/
def payloadSize (p : libratoPayload) : Nat :=
  p.Gauges.length

/-- Extracts the gauge from a channel value, if it is one. -/
def toGauge : Metric → Option gauge
  | Metric.g x => some x
  | Metric.other _ => none

/-- Outcomes of the `select` in the loop of `startMetricsSender`: a
metric arrives on the channel, or the `time.After` deadline elapses (the
event carries the abstract time at which it fires). -/
inductive BatchEvent where
  | arrival (m : Metric)
  | deadline (now : Int)
deriving DecidableEq

/-- State owned by the `startMetricsSender` goroutine: the open payload
and the pending `time.After` deadline. -/
structure BatcherState where
  payload : libratoPayload
  deadline : Int
deriving DecidableEq

/-- One iteration of the `select` loop of `startMetricsSender`
(`main.go` lines 179-198): a metric arrival is added to the open payload
(an `addMetric` error is printed and the metric dropped) and the
deadline is untouched; an elapsed deadline hands the current payload to
a new sender goroutine, and a fresh `time.After(libratoDelay)` deadline
and a fresh empty payload are installed. Returns the new state and the
flushed payload, if any. -/
def batcherStep (window : Int) (st : BatcherState) :
    BatchEvent → BatcherState × Option libratoPayload
  | BatchEvent.arrival m =>
    match addMetric st.payload m with
    | Except.ok p => ({ st with payload := p }, none)
    | Except.error _ => (st, none)
  | BatchEvent.deadline now =>
    ({ payload := { Gauges := [] }, deadline := now + window }, some st.payload)

/-- The `select` loop of `startMetricsSender` over a sequence of wait
outcomes: returns the final state and the flushed payloads in order. -/
def runBatcher (window : Int) (st : BatcherState) :
    List BatchEvent → BatcherState × List libratoPayload
  | [] => (st, [])
  | e :: es =>
    let p := batcherStep window st e
    let r := runBatcher window p.1 es
    match p.2 with
    | none => (r.1, r.2)
    | some flushed => (r.1, flushed :: r.2)

/-- The arrivals of each completed batching window of an event sequence:
the metrics that arrive strictly between one elapsed deadline and the
next (`acc` holds the arrivals of the currently open window; arrivals
after the last deadline belong to a window that never flushes). -/
def windowArrivals (acc : List Metric) : List BatchEvent → List (List Metric)
  | [] => []
  | BatchEvent.arrival m :: es => windowArrivals (acc ++ [m]) es
  | BatchEvent.deadline _ :: es => acc :: windowArrivals [] es

/-! ## Periods and configuration (`main.go` constants, part_000 sleep) -/

/-- Constant `cpuDelay` of `main.go`, in seconds: the sampling period. -/
def cpuDelaySeconds : Int := 1

/-- Constant `libratoDelay` of `main.go`, in seconds: the batching
window. It is a fixed constant; no configuration field feeds it. -/
def libratoDelaySeconds : Int := 2

/-- Sampling sleep of the latest revision (part_000 line 100), in
seconds: `time.Sleep(time.Duration(conf.Cpu.PeriodSeconds) * time.Second)`
uses the configured value directly, with no positivity guard and no
replacement by a default. -/
def cpuSleepSeconds (periodSeconds : Int) : Int :=
  periodSeconds

/-! ## Shared lemmas and concrete samples -/

/-- Division by a zero total is never finite: IEEE-754 yields NaN or a
signed infinity. -/
theorem goDiv_zero_not_finite (a : Int) : (goDiv a 0).isFinite = false := by
  by_cases h : a = 0
  · subst h
    rfl
  · unfold goDiv
    rw [if_pos rfl, if_neg h]
    split <;> rfl

/-- Fallback gauge used with `List.getD` (never actually selected). -/
def gauge0 : gauge :=
  { Name := "", MeasureTime := 0, Value := GoFloat.nan }

/-- Parse of the raw line `cpu 100 10 50 300 0 0 0 0 0 0` at epoch 1. -/
def sampleA : cpuStat :=
  { name := "cpu", user := 100, nice := 10, system := 50, idle := 300,
    total := 460, epoch := 1 }

/-- Parse of the raw line `cpu 200 20 80 500 0 0 0 0 0 0` at epoch 2. -/
def sampleB : cpuStat :=
  { name := "cpu", user := 200, nice := 20, system := 80, idle := 500,
    total := 800, epoch := 2 }

/-- First raw line of the spec example. -/
def lineA : String := "cpu 100 10 50 300 0 0 0 0 0 0"

/-- Second raw line of the spec example. -/
def lineB : String := "cpu 200 20 80 500 0 0 0 0 0 0"

/-! ## Claims -/

/-- C1, counterexample: with an established baseline and a field-wise
delta of total 0 (three identical reads of the line behind `sampleA`),
the third cycle still emits all five gauges, every one carrying NaN.
This falsifies both halves of the claim: emission is not skipped when
`delta.total ≤ 0`, and NaN values do reach the output. -/
theorem C1_nan_emission_cex :
    mapFind (runCycles "h" [] [[sampleA], [sampleA]]).1 "cpu" = some sampleA ∧
    (sampleA.difference sampleA).total ≤ 0 ∧
    ((runCycles "h" [] [[sampleA], [sampleA], [sampleA]]).2).getD 2 [] =
      [("cpu",
        [ { Name := "cpu-user", MeasureTime := 1, Value := GoFloat.nan, Source := "h" }
        , { Name := "cpu-nice", MeasureTime := 1, Value := GoFloat.nan, Source := "h" }
        , { Name := "cpu-system", MeasureTime := 1, Value := GoFloat.nan, Source := "h" }
        , { Name := "cpu-idle", MeasureTime := 1, Value := GoFloat.nan, Source := "h" }
        , { Name := "cpu-usage", MeasureTime := 1, Value := GoFloat.nan, Source := "h" } ])] ∧
    GoFloat.isFinite GoFloat.nan = false := by
  refine ⟨by decide, by decide, by decide, rfl⟩

/-- C1, amended: the sampler has no `delta.total ≤ 0` guard. Whenever a
baseline exists it emits the five metrics of the field-wise delta
unconditionally, and when the delta total is 0 every emitted value is
non-finite (NaN or a signed infinity). -/
theorem C1_no_guard_amended (hostname : String) (lookup : List (String × cpuStat))
    (stat cumulative : cpuStat)
    (hb : mapFind lookup stat.name = some cumulative) :
    (processStat hostname lookup stat).2 = (cumulative.difference stat).metrics hostname ∧
    ((processStat hostname lookup stat).2).length = 5 ∧
    ((cumulative.difference stat).total = 0 →
      ∀ g ∈ (processStat hostname lookup stat).2, g.Value.isFinite = false) := by
  have hps : processStat hostname lookup stat =
      (mapInsert lookup stat.name stat, (cumulative.difference stat).metrics hostname) := by
    unfold processStat
    rw [hb]
  refine ⟨by rw [hps], by rw [hps]; rfl, ?_⟩
  intro ht g hg
  rw [hps] at hg
  simp only [cpuStat.metrics, List.mem_cons, List.not_mem_nil, or_false] at hg
  rcases hg with h | h | h | h | h <;>
    · subst h
      simp only [cpuStat.userPercentage, cpuStat.nicePercentage, cpuStat.systemPercentage,
        cpuStat.idlePercentage, cpuStat.usagePercentage, cpuStat.percentage, ht,
        goDiv_zero_not_finite]

/-- C1, witness for the amended theorem at a concrete baseline and
sample with delta total 0. -/
theorem C1_no_guard_amended_witness :
    (processStat "h" [("cpu", sampleA)] sampleA).2 =
      (sampleA.difference sampleA).metrics "h" ∧
    ((processStat "h" [("cpu", sampleA)] sampleA).2).length = 5 ∧
    ((sampleA.difference sampleA).total = 0 →
      ∀ g ∈ (processStat "h" [("cpu", sampleA)] sampleA).2, g.Value.isFinite = false) :=
  C1_no_guard_amended "h" [("cpu", sampleA)] sampleA sampleA (by decide)

/-- C2 (code bug): the first observation of an id stores the Go zero
value `*new(cpuStat)` as the baseline, not the observed sample, so the
second cycle's delta is taken against zero (values since boot), not
against the first sample — contradicting the claim and the method's own
doc comment ("will only consider values since the last measurement"). -/
theorem C2_zero_baseline_bug :
    processStat "h" [] sampleA = ([("cpu", zeroStat)], []) ∧
    zeroStat ≠ sampleA ∧
    ((runCycles "h" [] [[sampleA], [sampleB]]).2).getD 1 [] =
      [("cpu", (zeroStat.difference sampleB).metrics "h")] ∧
    zeroStat.difference sampleB ≠ sampleA.difference sampleB := by
  refine ⟨rfl, by decide, rfl, by decide⟩

/-- C3 (code bug): running the sampler from a fresh start on exactly the
two raw lines of the claim, the second cycle's delta is computed against
the zero baseline, so `delta.total = 800` (not 340) and the emitted user
percentage is `200/800 = 1/4 = 0.25`, not `100/340 = 5/17 ≈ 0.294`. The
claimed value `5/17` is within the stated tolerance of 0.294; the value
the code emits is not. -/
theorem C3_cold_start_delta_bug :
    readCpuStats 1 [lineA] = Except.ok [sampleA] ∧
    readCpuStats 2 [lineB] = Except.ok [sampleB] ∧
    ((runCycles "h" [] [[sampleA], [sampleB]]).2).getD 1 [] =
      [("cpu", (zeroStat.difference sampleB).metrics "h")] ∧
    (zeroStat.difference sampleB).total = 800 ∧
    (zeroStat.difference sampleB).total ≠ 340 ∧
    ((zeroStat.difference sampleB).metrics "h").getD 0 gauge0 =
      { Name := "cpu-user", MeasureTime := 2, Value := GoFloat.fin (1/4), Source := "h" } ∧
    GoFloat.fin ((1 : ℚ)/4) ≠ GoFloat.fin (5/17) ∧
    (5 : ℚ)/17 = 100/340 ∧
    |(5 : ℚ)/17 - 294/1000| < 1/1000 ∧
    ¬ |(1 : ℚ)/4 - 294/1000| < 1/1000 := by
  have hval : ((zeroStat.difference sampleB).metrics "h").getD 0 gauge0 =
      { Name := "cpu-user", MeasureTime := 2, Value := goDiv 200 800, Source := "h" } := rfl
  refine ⟨rfl, rfl, rfl, by decide, by decide, ?_, ?_, by norm_num, ?_, ?_⟩
  · rw [hval]
    have : goDiv 200 800 = GoFloat.fin ((200 : ℚ)/800) := by
      unfold goDiv
      norm_num
    rw [this]
    norm_num
  · intro h
    rw [GoFloat.fin.injEq] at h
    norm_num at h
  · rw [abs_sub_lt_iff]
    constructor <;> norm_num
  · rw [abs_sub_lt_iff]
    intro h
    rcases h with ⟨h1, h2⟩
    norm_num at h2

/-- C4: whenever a baseline exists and the delta total is positive, the
sampler emits exactly five gauges for the id, named `<id>-user`,
`<id>-nice`, `<id>-system`, `<id>-idle`, `<id>-usage`, in that order,
all with the delta's timestamp (the current sample's epoch) and the
agent's hostname as source. -/
theorem C4_five_metrics (hostname : String) (lookup : List (String × cpuStat))
    (stat cumulative : cpuStat)
    (hb : mapFind lookup stat.name = some cumulative)
    (_hpos : 0 < (cumulative.difference stat).total) :
    ((processStat hostname lookup stat).2).length = 5 ∧
    ((processStat hostname lookup stat).2).map gauge.Name =
      [ stat.name ++ "-" ++ "user", stat.name ++ "-" ++ "nice",
        stat.name ++ "-" ++ "system", stat.name ++ "-" ++ "idle",
        stat.name ++ "-" ++ "usage" ] ∧
    ((processStat hostname lookup stat).2).map gauge.MeasureTime =
      [stat.epoch, stat.epoch, stat.epoch, stat.epoch, stat.epoch] ∧
    ((processStat hostname lookup stat).2).map gauge.Source =
      [hostname, hostname, hostname, hostname, hostname] := by
  have hps : (processStat hostname lookup stat).2 =
      (cumulative.difference stat).metrics hostname := by
    unfold processStat
    rw [hb]
  rw [hps]
  exact ⟨rfl, rfl, rfl, rfl⟩

/-- C4, witness: the steady-state second cycle of the spec example
(baseline `sampleA`, current `sampleB`, delta total 340 > 0). -/
theorem C4_five_metrics_witness :
    ((processStat "h" [("cpu", sampleA)] sampleB).2).length = 5 ∧
    ((processStat "h" [("cpu", sampleA)] sampleB).2).map gauge.Name =
      [ sampleB.name ++ "-" ++ "user", sampleB.name ++ "-" ++ "nice",
        sampleB.name ++ "-" ++ "system", sampleB.name ++ "-" ++ "idle",
        sampleB.name ++ "-" ++ "usage" ] ∧
    ((processStat "h" [("cpu", sampleA)] sampleB).2).map gauge.MeasureTime =
      [sampleB.epoch, sampleB.epoch, sampleB.epoch, sampleB.epoch, sampleB.epoch] ∧
    ((processStat "h" [("cpu", sampleA)] sampleB).2).map gauge.Source =
      ["h", "h", "h", "h", "h"] :=
  C4_five_metrics "h" [("cpu", sampleA)] sampleB sampleA (by decide) (by decide)

/-- C6, helper: the numeric value of a token that `atoi` accepts
(0 for a token it rejects; under a successful parse every counter token
is accepted, see the `all` conjunct of the claim theorem). -/
def atoiD (t : String) : Int :=
  match atoi t with
  | Except.ok v => v
  | Except.error _ => 0

/-- Whether `atoi` accepts a token. -/
def atoiOk (t : String) : Bool :=
  match atoi t with
  | Except.ok _ => true
  | Except.error _ => false

/-- Setting a named field never changes the running total. -/
theorem setField_total (index : Nat) (value : Int) (stat : cpuStat) :
    (setField index value stat).total = stat.total := by
  unfold setField
  split <;> rfl

/-- A successful counter loop accepts every token and adds every parsed
value — at every index, named or not — into the total. -/
theorem fillStat_total : ∀ (toks : List String) (index : Nat) (st stat : cpuStat),
    fillStat index toks st = Except.ok stat →
    stat.total = st.total + (toks.map atoiD).sum ∧ toks.all atoiOk = true := by
  intro toks
  induction toks with
  | nil =>
    intro index st stat h
    simp only [fillStat] at h
    cases h
    simp
  | cons v rest ih =>
    intro index st stat h
    simp only [fillStat] at h
    cases hv : atoi v with
    | error e =>
      rw [hv] at h
      cases h
    | ok value =>
      rw [hv] at h
      obtain ⟨h1, h2⟩ := ih (index + 1) _ stat h
      have hd : atoiD v = value := by
        unfold atoiD
        rw [hv]
      have ho : atoiOk v = true := by
        unfold atoiOk
        rw [hv]
      refine ⟨?_, by simp [ho, h2]⟩
      rw [List.map_cons, List.sum_cons, h1, hd]
      dsimp only
      rw [setField_total]
      omega

/-- Unfolding equation for `readCpuStats` on a line. -/
theorem readCpuStats_cons (epoch : Int) (line : String) (rest : List String) :
    readCpuStats epoch (line :: rest) =
      (if strHasPre ((split line).headD "") "cpu" = true then
        match fillStat 0 (split line).tail
            { zeroStat with name := (split line).headD "", epoch := epoch } with
        | Except.error e => Except.error e
        | Except.ok stat =>
          match readCpuStats epoch rest with
          | Except.error e => Except.error e
          | Except.ok stats => Except.ok (stat :: stats)
      else readCpuStats epoch rest) := rfl

/-- C6: whenever a counter line parses successfully, the resulting
sample's total is the sum of the values of all counter tokens on the
line (every token after the identifier, including fields beyond the
four named ones), and every such token was accepted by `atoi`. -/
theorem C6_total_sums_all_tokens (epoch : Int) (line : String) (stat : cpuStat)
    (hp : readCpuStats epoch [line] = Except.ok [stat]) :
    stat.total = (((split line).tail).map atoiD).sum ∧
    ((split line).tail).all atoiOk = true := by
  rw [readCpuStats_cons] at hp
  by_cases hc : strHasPre ((split line).headD "") "cpu" = true
  · rw [if_pos hc] at hp
    cases hf : fillStat 0 (split line).tail
        { zeroStat with name := (split line).headD "", epoch := epoch } with
    | error e =>
      rw [hf] at hp
      exact Except.noConfusion hp
    | ok st0 =>
      rw [hf] at hp
      have hin : readCpuStats epoch [] = Except.ok [] := rfl
      rw [hin] at hp
      obtain rfl : st0 = stat := by
        have := congrArg (fun r => match r with
          | Except.ok (s :: _) => s
          | _ => st0) hp
        simpa using this
      obtain ⟨h1, h2⟩ := fillStat_total _ 0 _ _ hf
      refine ⟨?_, h2⟩
      rw [h1]
      simp [zeroStat]
  · rw [if_neg hc] at hp
    have hin : readCpuStats epoch [] = Except.ok [] := rfl
    rw [hin] at hp
    simp at hp

/-- C6, witness: the ten-field line of the spec example; its total 800
sums iowait and the later fields as well as the four named ones. -/
theorem C6_total_sums_all_tokens_witness :
    sampleB.total = (((split lineB).tail).map atoiD).sum ∧
    ((split lineB).tail).all atoiOk = true :=
  C6_total_sums_all_tokens 2 lineB sampleB rfl

/-- Tail of a single-space join at the character level. -/
def joinChTail : List (List Char) → List Char
  | [] => []
  | t :: ts => ' ' :: (t ++ joinChTail ts)

/-- Single-space join of token character lists. -/
def joinCh : List (List Char) → List Char
  | [] => []
  | t :: ts => t ++ joinChTail ts

/-- Tail of a single-space join of tokens. -/
def joinTokensTail : List String → String
  | [] => ""
  | t :: ts => " " ++ t ++ joinTokensTail ts

/-- Single-space join of tokens. -/
def joinTokens : List String → String
  | [] => ""
  | t :: ts => t ++ joinTokensTail ts

/-- Rejoins the whitespace-separated tokens of a line with single
spaces: the single-space-separated rendering of the same tokens. -/
def normalizeLine (line : String) : String :=
  joinTokens (split line)

/-- Consuming a whitespace-free chunk moves it into the accumulator. -/
theorem fieldsAux_chunk : ∀ (t cs acc : List Char),
    (∀ c ∈ t, c.isWhitespace = false) →
    fieldsAux (t ++ cs) acc = fieldsAux cs (t.reverse ++ acc) := by
  intro t
  induction t with
  | nil =>
    intro cs acc _
    simp
  | cons c t ih =>
    intro cs acc hw
    have hc : c.isWhitespace = false := hw c (by simp)
    have ht : ∀ x ∈ t, x.isWhitespace = false := fun x hx => hw x (by simp [hx])
    show fieldsAux (c :: (t ++ cs)) acc = fieldsAux cs ((c :: t).reverse ++ acc)
    rw [List.reverse_cons]
    simp only [fieldsAux, hc, Bool.false_eq_true, if_false]
    rw [ih cs (c :: acc) ht]
    simp [List.append_assoc]

/-- Every token produced by `fieldsAux` is nonempty and whitespace-free. -/
theorem fieldsAux_good : ∀ (cs acc : List Char),
    (∀ c ∈ acc, c.isWhitespace = false) →
    ∀ t ∈ fieldsAux cs acc, t ≠ [] ∧ ∀ c ∈ t, c.isWhitespace = false := by
  intro cs
  induction cs with
  | nil =>
    intro acc hacc t ht
    simp only [fieldsAux] at ht
    rcases hn : acc.isEmpty with hf | htr
    · rw [hn] at ht
      simp at ht
      subst ht
      refine ⟨by simpa [List.isEmpty_iff] using hn, ?_⟩
      intro c hc
      exact hacc c (by simpa using hc)
    · rw [hn] at ht
      simp at ht
  | cons c cs ih =>
    intro acc hacc t ht
    simp only [fieldsAux] at ht
    by_cases hw : c.isWhitespace = true
    · rw [if_pos hw] at ht
      by_cases he : acc.isEmpty = true
      · rw [if_pos he] at ht
        exact ih [] (by simp) t ht
      · rw [if_neg he] at ht
        rcases List.mem_cons.mp ht with h | h
        · subst h
          refine ⟨?_, ?_⟩
          · intro hrev
            rw [List.reverse_eq_nil_iff] at hrev
            exact he (by simp [hrev])
          · intro x hx
            exact hacc x (by simpa using hx)
        · exact ih [] (by simp) t h
    · rw [if_neg hw] at ht
      refine ih (c :: acc) ?_ t ht
      intro x hx
      rcases List.mem_cons.mp hx with h | h
      · subst h
        simpa using hw
      · exact hacc x h

/-- Splitting the tail of a single-space join flushes the accumulator
and returns the joined tokens. -/
theorem fieldsAux_joinChTail : ∀ (ts : List (List Char)) (acc : List Char),
    acc.isEmpty = false →
    (∀ t ∈ ts, t ≠ [] ∧ ∀ c ∈ t, c.isWhitespace = false) →
    fieldsAux (joinChTail ts) acc = acc.reverse :: ts := by
  intro ts
  induction ts with
  | nil =>
    intro acc hne _
    simp [joinChTail, fieldsAux, hne]
  | cons t ts ih =>
    intro acc hne hgood
    have ht := hgood t (by simp)
    have hts : ∀ x ∈ ts, x ≠ [] ∧ ∀ c ∈ x, c.isWhitespace = false :=
      fun x hx => hgood x (by simp [hx])
    have hsp : (' ' : Char).isWhitespace = true := rfl
    simp only [joinChTail, fieldsAux, hsp, if_true, hne, Bool.false_eq_true, if_false]
    rw [fieldsAux_chunk t (joinChTail ts) [] ht.2]
    rw [List.append_nil]
    have hrev : (t.reverse).isEmpty = false := by
      rcases t with _ | ⟨c, t⟩
      · exact absurd rfl ht.1
      · simp [List.isEmpty_iff]
    rw [ih t.reverse hrev hts, List.reverse_reverse]

/-- Splitting a single-space join of good tokens recovers the tokens. -/
theorem fieldsAux_joinCh (ts : List (List Char))
    (hgood : ∀ t ∈ ts, t ≠ [] ∧ ∀ c ∈ t, c.isWhitespace = false) :
    fieldsAux (joinCh ts) [] = ts := by
  rcases ts with _ | ⟨t, ts⟩
  · rfl
  · have ht := hgood t (by simp)
    have hts : ∀ x ∈ ts, x ≠ [] ∧ ∀ c ∈ x, c.isWhitespace = false :=
      fun x hx => hgood x (by simp [hx])
    show fieldsAux (t ++ joinChTail ts) [] = t :: ts
    rw [fieldsAux_chunk t (joinChTail ts) [] ht.2, List.append_nil]
    have hrev : (t.reverse).isEmpty = false := by
      rcases t with _ | ⟨c, t⟩
      · exact absurd rfl ht.1
      · simp [List.isEmpty_iff]
    rw [fieldsAux_joinChTail ts t.reverse hrev hts, List.reverse_reverse]

/-- Character data of `joinTokensTail`. -/
theorem data_joinTokensTail : ∀ ls : List String,
    (joinTokensTail ls).data = joinChTail (ls.map String.data) := by
  intro ls
  induction ls with
  | nil => rfl
  | cons t ts ih =>
    show (" " ++ t ++ joinTokensTail ts).data = ' ' :: (t.data ++ joinChTail (ts.map String.data))
    rw [String.data_append, String.data_append, ih]
    rfl

/-- Character data of `joinTokens`. -/
theorem data_joinTokens : ∀ ls : List String,
    (joinTokens ls).data = joinCh (ls.map String.data) := by
  intro ls
  rcases ls with _ | ⟨t, ts⟩
  · rfl
  · show (t ++ joinTokensTail ts).data = t.data ++ joinChTail (ts.map String.data)
    rw [String.data_append, data_joinTokensTail]

/-- Splitting is insensitive to the width of whitespace runs: the
single-space rendering of a line's tokens splits back to the same
tokens. -/
theorem split_normalize (line : String) : split (normalizeLine line) = split line := by
  have hgood := fieldsAux_good line.data [] (by simp)
  have hdata : (normalizeLine line).data = joinCh (fieldsAux line.data []) := by
    show (joinTokens ((fieldsAux line.data []).map String.mk)).data = _
    rw [data_joinTokens, List.map_map]
    have hid : (String.data ∘ String.mk) = id := rfl
    rw [hid, List.map_id]
  show (fieldsAux (normalizeLine line).data []).map String.mk = split line
  rw [hdata, fieldsAux_joinCh _ hgood]
  rfl

/-- Parsing sees only the token list of each line, so it cannot tell a
line from its single-space rendering. -/
theorem readCpuStats_normalize (epoch : Int) : ∀ lines : List String,
    readCpuStats epoch (lines.map normalizeLine) = readCpuStats epoch lines := by
  intro lines
  induction lines with
  | nil => rfl
  | cons line rest ih =>
    rw [List.map_cons, readCpuStats_cons, readCpuStats_cons, split_normalize, ih]

/-- C5: the parse splits each line on whitespace (first token the
identifier, later tokens the counters), so any line equals its
single-space-separated rendering under the parse; in particular the
aggregate line of `/proc/stat`, which has two spaces after `cpu`,
parses to the same sample as its single-spaced form and does not abort
the cycle. -/
theorem C5_whitespace_split :
    (∀ (epoch : Int) (lines : List String),
      readCpuStats epoch (lines.map normalizeLine) = readCpuStats epoch lines) ∧
    normalizeLine "cpu  100 10 50 300 0 0 0 0 0 0" = "cpu 100 10 50 300 0 0 0 0 0 0" ∧
    readCpuStats 7 ["cpu  100 10 50 300 0 0 0 0 0 0"] =
      Except.ok [{ name := "cpu", user := 100, nice := 10, system := 50,
                   idle := 300, total := 460, epoch := 7 }] ∧
    readCpuStats 7 ["cpu 100 10 50 300 0 0 0 0 0 0"] =
      Except.ok [{ name := "cpu", user := 100, nice := 10, system := 50,
                   idle := 300, total := 460, epoch := 7 }] :=
  ⟨readCpuStats_normalize, by decide, rfl, rfl⟩

/-- C7, counterexample: no defaulting exists. With `Cpu.PeriodSeconds`
absent (Go zero value 0), the part_000 sampling sleep is 0 seconds —
neither replaced by the documented default 1 nor strictly positive — and
the batching window is the constant 2 seconds, not the documented
default 5, regardless of configuration. -/
theorem C7_documented_defaults_cex :
    cpuSleepSeconds 0 = 0 ∧
    ¬ 0 < cpuSleepSeconds 0 ∧
    cpuSleepSeconds 0 ≠ 1 ∧
    libratoDelaySeconds = 2 ∧
    libratoDelaySeconds ≠ 5 := by
  refine ⟨rfl, by decide, by decide, rfl, by decide⟩

/-- C7, amended: the runtime periods are not derived from any
`PeriodSeconds` defaulting. `main.go` fixes the sampling period at 1
second and the batching window at 2 seconds; the part_000 revision
sleeps exactly the configured `Cpu.PeriodSeconds`, so a non-positive
configured value produces a non-positive sampling period. -/
theorem C7_fixed_periods_amended :
    cpuDelaySeconds = 1 ∧
    libratoDelaySeconds = 2 ∧
    (∀ p : Int, cpuSleepSeconds p = p) ∧
    (∀ p : Int, p ≤ 0 → ¬ 0 < cpuSleepSeconds p) := by
  refine ⟨rfl, rfl, fun p => rfl, fun p hp => ?_⟩
  simpa [cpuSleepSeconds] using hp

/-- Whether a channel value is a non-gauge arrival. -/
def isOtherArrival : BatchEvent → Bool
  | BatchEvent.arrival (Metric.other _) => true
  | _ => false

/-- The flushed payloads of a batcher run are exactly the per-window
gauge sequences, given that the open payload holds the gauges of the
current window's arrivals so far. -/
theorem runBatcher_windows (window : Int) : ∀ (events : List BatchEvent)
    (st : BatcherState) (acc : List Metric),
    st.payload.Gauges = acc.filterMap toGauge →
    (runBatcher window st events).2.map libratoPayload.Gauges
      = (windowArrivals acc events).map (fun ms => ms.filterMap toGauge) := by
  intro events
  induction events with
  | nil =>
    intro st acc h
    rfl
  | cons e es ih =>
    intro st acc h
    cases e with
    | arrival m =>
      cases m with
      | g x =>
        show (runBatcher window { st with payload := { Gauges := st.payload.Gauges ++ [x] } } es).2.map
            libratoPayload.Gauges = (windowArrivals (acc ++ [Metric.g x]) es).map
            (fun ms => ms.filterMap toGauge)
        refine ih _ (acc ++ [Metric.g x]) ?_
        show st.payload.Gauges ++ [x] = (acc ++ [Metric.g x]).filterMap toGauge
        rw [List.filterMap_append, h]
        rfl
      | other t =>
        show (runBatcher window st es).2.map libratoPayload.Gauges
            = (windowArrivals (acc ++ [Metric.other t]) es).map (fun ms => ms.filterMap toGauge)
        refine ih st (acc ++ [Metric.other t]) ?_
        rw [List.filterMap_append, h]
        simp [toGauge]
    | deadline now =>
      show st.payload.Gauges ::
          (runBatcher window { payload := { Gauges := [] }, deadline := now + window } es).2.map
            libratoPayload.Gauges
        = (acc.filterMap toGauge) :: (windowArrivals [] es).map (fun ms => ms.filterMap toGauge)
      rw [h, ih _ [] rfl]

/-- Every metric of a completed window arrived on the channel (or was
already in the accumulator). -/
theorem windowArrivals_mem : ∀ (events : List BatchEvent) (acc ms : List Metric),
    ms ∈ windowArrivals acc events → ∀ m ∈ ms, m ∈ acc ∨ BatchEvent.arrival m ∈ events := by
  intro events
  induction events with
  | nil =>
    intro acc ms hms
    simp [windowArrivals] at hms
  | cons e es ih =>
    intro acc ms hms m hm
    cases e with
    | arrival a =>
      have hms2 : ms ∈ windowArrivals (acc ++ [a]) es := hms
      rcases ih (acc ++ [a]) ms hms2 m hm with hacc | hev
      · rcases List.mem_append.mp hacc with h | h
        · exact Or.inl h
        · simp at h
          subst h
          exact Or.inr (by simp)
      · exact Or.inr (by simp [hev])
    | deadline now =>
      have hms2 : ms ∈ acc :: windowArrivals [] es := hms
      rcases List.mem_cons.mp hms2 with h | h
      · subst h
        exact Or.inl hm
      · rcases ih [] ms h m hm with habs | hev
        · simp at habs
        · exact Or.inr (by simp [hev])

/-- Extracting the gauges of an all-gauge metric list loses nothing. -/
theorem filterMap_toGauge_length : ∀ ms : List Metric,
    (∀ m ∈ ms, ∀ t, m ≠ Metric.other t) →
    (ms.filterMap toGauge).length = ms.length := by
  intro ms
  induction ms with
  | nil =>
    intro _
    rfl
  | cons m rest ih =>
    intro h
    cases m with
    | g x =>
      show (List.filterMap toGauge (Metric.g x :: rest)).length = rest.length + 1
      rw [List.filterMap_cons]
      show (x :: rest.filterMap toGauge).length = rest.length + 1
      rw [List.length_cons, ih (fun m hm t => h m (by simp [hm]) t)]
    | other t => exact absurd rfl (h (Metric.other t) (by simp) t)

/-- C8: for every batching window, the flushed payload holds exactly
the metrics that arrived strictly within that window, in arrival order
(all arrivals being gauges, as the sampler only sends gauges); an
arrival appends to the open payload and leaves the deadline untouched
with no flush; an elapsed deadline detaches the payload (possibly
empty) and immediately installs a fresh empty payload and a fresh
deadline. -/
theorem C8_window_exactness (window start : Int) (events : List BatchEvent)
    (harr : events.all (fun e => !(isOtherArrival e)) = true) :
    ((runBatcher window { payload := { Gauges := [] }, deadline := start } events).2.map
        libratoPayload.Gauges
      = (windowArrivals [] events).map (fun ms => ms.filterMap toGauge)) ∧
    (∀ ms ∈ windowArrivals [] events, (ms.filterMap toGauge).length = ms.length) ∧
    (∀ (st : BatcherState) (m : Metric),
      (batcherStep window st (BatchEvent.arrival m)).1.deadline = st.deadline ∧
      (batcherStep window st (BatchEvent.arrival m)).2 = none) ∧
    (∀ (st : BatcherState) (t : Int),
      batcherStep window st (BatchEvent.deadline t)
        = ({ payload := { Gauges := [] }, deadline := t + window }, some st.payload)) := by
  refine ⟨runBatcher_windows window events _ [] rfl, ?_, ?_, fun st t => rfl⟩
  · intro ms hms
    refine filterMap_toGauge_length ms ?_
    intro m hm t hmo
    subst hmo
    rcases windowArrivals_mem events [] ms hms _ hm with habs | hev
    · simp at habs
    · have := List.all_eq_true.mp harr _ hev
      simp [isOtherArrival] at this
  · intro st m
    cases m with
    | g x => exact ⟨rfl, rfl⟩
    | other t => exact ⟨rfl, rfl⟩

/-- C8, witness: two gauges in the second window of a concrete run. -/
theorem C8_window_exactness_witness :
    (runBatcher 2 { payload := { Gauges := [] }, deadline := 0 }
        [ BatchEvent.arrival (Metric.g gauge0), BatchEvent.deadline 2,
          BatchEvent.arrival (Metric.g gauge0), BatchEvent.arrival (Metric.g gauge0),
          BatchEvent.deadline 4, BatchEvent.deadline 6 ]).2.map libratoPayload.Gauges
      = (windowArrivals []
          [ BatchEvent.arrival (Metric.g gauge0), BatchEvent.deadline 2,
            BatchEvent.arrival (Metric.g gauge0), BatchEvent.arrival (Metric.g gauge0),
            BatchEvent.deadline 4, BatchEvent.deadline 6 ]).map (fun ms => ms.filterMap toGauge) :=
  (C8_window_exactness 2 0
    [ BatchEvent.arrival (Metric.g gauge0), BatchEvent.deadline 2,
      BatchEvent.arrival (Metric.g gauge0), BatchEvent.arrival (Metric.g gauge0),
      BatchEvent.deadline 4, BatchEvent.deadline 6 ] (by decide)).1

/-- The tag of each per-stat emission group of a cycle is the name of
the stat that produced it, in order. -/
theorem processCycle_tags (hostname : String) : ∀ (stats : List cpuStat)
    (lookup : List (String × cpuStat)),
    ((processCycle hostname lookup stats).2).map Prod.fst = stats.map cpuStat.name := by
  intro stats
  induction stats with
  | nil =>
    intro lookup
    rfl
  | cons stat rest ih =>
    intro lookup
    show stat.name :: ((processCycle hostname _ rest).2).map Prod.fst
        = stat.name :: rest.map cpuStat.name
    rw [ih]

/-- Inserting one key does not affect lookups of another. -/
theorem mapFind_insert_other : ∀ (l : List (String × cpuStat)) (k key : String) (v : cpuStat),
    key ≠ k → mapFind (mapInsert l k v) key = mapFind l key := by
  intro l
  induction l with
  | nil =>
    intro k key v h
    show (if k = key then some v else none) = none
    rw [if_neg (fun hk => h hk.symm)]
  | cons p rest ih =>
    intro k key v h
    rcases p with ⟨pk, pv⟩
    by_cases hpk : pk = k
    · subst hpk
      show mapFind (if pk = pk then (pk, v) :: rest else (pk, pv) :: mapInsert rest pk v) key
          = mapFind ((pk, pv) :: rest) key
      rw [if_pos rfl]
      show (if pk = key then some v else mapFind rest key)
          = (if pk = key then some pv else mapFind rest key)
      rw [if_neg (fun hk => h hk.symm), if_neg (fun hk => h hk.symm)]
    · show mapFind (if pk = k then (k, v) :: rest else (pk, pv) :: mapInsert rest k v) key
          = mapFind ((pk, pv) :: rest) key
      rw [if_neg hpk]
      show (if pk = key then some pv else mapFind (mapInsert rest k v) key)
          = (if pk = key then some pv else mapFind rest key)
      rw [ih k key v h]

/-- Processing a stat never adds an entry under a different id. -/
theorem processStat_find_none (hostname : String) (lookup : List (String × cpuStat))
    (stat : cpuStat) (id : String)
    (h : mapFind lookup id = none) (hne : id ≠ stat.name) :
    mapFind (processStat hostname lookup stat).1 id = none := by
  have hfst : (processStat hostname lookup stat).1 = mapInsert lookup stat.name
      (match mapFind lookup stat.name with | none => zeroStat | some _ => stat) := by
    unfold processStat
    cases mapFind lookup stat.name <;> rfl
  rw [hfst, mapFind_insert_other lookup stat.name id _ hne]
  exact h

/-- A cycle containing no stat named `id` adds no entry for `id`. -/
theorem processCycle_find_none (hostname : String) : ∀ (stats : List cpuStat)
    (lookup : List (String × cpuStat)) (id : String),
    mapFind lookup id = none → id ∉ stats.map cpuStat.name →
    mapFind (processCycle hostname lookup stats).1 id = none := by
  intro stats
  induction stats with
  | nil =>
    intro lookup id h _
    exact h
  | cons stat rest ih =>
    intro lookup id h hni
    have hne : id ≠ stat.name := fun he => hni (by simp [he])
    have hnr : id ∉ rest.map cpuStat.name := fun hr => hni (by simp [hr])
    exact ih _ id (processStat_find_none hostname lookup stat id h hne) hnr

/-- Within one cycle (distinct ids), an id with no baseline at cycle
start emits nothing. -/
theorem processCycle_first (hostname : String) : ∀ (stats : List cpuStat)
    (lookup : List (String × cpuStat)) (id : String) (gs : List gauge),
    mapFind lookup id = none → (stats.map cpuStat.name).Nodup →
    (id, gs) ∈ (processCycle hostname lookup stats).2 → gs = [] := by
  intro stats
  induction stats with
  | nil =>
    intro lookup id gs _ _ hmem
    simp [processCycle] at hmem
  | cons stat rest ih =>
    intro lookup id gs h hnd hmem
    have hmem2 : (id, gs) = (stat.name, (processStat hostname lookup stat).2) ∨
        (id, gs) ∈ (processCycle hostname (processStat hostname lookup stat).1 rest).2 :=
      List.mem_cons.mp hmem
    rcases hmem2 with he | hm
    · have hid : id = stat.name := congrArg Prod.fst he
      have hgs : gs = (processStat hostname lookup stat).2 := congrArg Prod.snd he
      rw [hgs]
      unfold processStat
      rw [← hid, h]
    · by_cases hne : id = stat.name
      · have hmap : id ∈ ((processCycle hostname (processStat hostname lookup stat).1 rest).2).map
            Prod.fst := List.mem_map.mpr ⟨(id, gs), hm, rfl⟩
        rw [processCycle_tags] at hmap
        rw [hne] at hmap
        exact absurd hmap (List.nodup_cons.mp hnd).1
      · exact ih _ id gs (processStat_find_none hostname lookup stat id h hne)
          (List.nodup_cons.mp hnd).2 hm

/-- Across cycles starting from an id-free map: if no earlier cycle
contains the id, cycle `j` emits nothing for it. -/
theorem runCycles_first (hostname : String) : ∀ (cycles : List (List cpuStat))
    (lookup : List (String × cpuStat)) (id : String) (j : Nat) (gs : List gauge),
    mapFind lookup id = none →
    (∀ c ∈ cycles, (c.map cpuStat.name).Nodup) →
    (∀ k, k < j → id ∉ (cycles.getD k []).map cpuStat.name) →
    (id, gs) ∈ ((runCycles hostname lookup cycles).2).getD j [] →
    gs = [] := by
  intro cycles
  induction cycles with
  | nil =>
    intro lookup id j gs _ _ _ hmem
    simp [runCycles] at hmem
  | cons c cs ih =>
    intro lookup id j gs h hnd hk hmem
    rcases j with _ | j
    · have hmem0 : (id, gs) ∈ (processCycle hostname lookup c).2 := hmem
      exact processCycle_first hostname c lookup id gs h (hnd c (by simp)) hmem0
    · have hmem1 : (id, gs) ∈ ((runCycles hostname (processCycle hostname lookup c).1 cs).2).getD
          j [] := hmem
      have hnotc : id ∉ c.map cpuStat.name := by
        have h0 := hk 0 (Nat.succ_pos j)
        simpa using h0
      refine ih _ id j gs (processCycle_find_none hostname c lookup id h hnotc)
        (fun x hx => hnd x (by simp [hx])) ?_ hmem1
      intro k hkj
      have hs := hk (k + 1) (Nat.succ_lt_succ hkj)
      simpa using hs

/-- C9: starting from the empty baseline table, the first cycle in which
an id is observed emits zero metrics for it (equivalently, a gauge group
for an id is nonempty only after a cycle that established its baseline);
distinctness of ids within a cycle is how `/proc/stat` presents them. -/
theorem C9_first_cycle_silent (hostname : String) (cycles : List (List cpuStat))
    (id : String) (j : Nat) (gs : List gauge)
    (hnd : ∀ c ∈ cycles, (c.map cpuStat.name).Nodup)
    (hfirst : ∀ k, k < j → id ∉ (cycles.getD k []).map cpuStat.name)
    (hmem : (id, gs) ∈ ((runCycles hostname [] cycles).2).getD j []) :
    gs = [] :=
  runCycles_first hostname cycles [] id j gs rfl hnd hfirst hmem

/-- C9, witness: the very first observation of id `cpu` emits nothing,
whatever its counter values. -/
theorem C9_first_cycle_silent_witness : ([] : List gauge) = [] :=
  C9_first_cycle_silent "h" [[sampleA]] "cpu" 0 []
    (by decide)
    (fun k hk => absurd hk (Nat.not_lt_zero k))
    (by decide)

/-- C10: the batcher's `addMetric` appends a gauge at the end of the
payload and returns no error; any non-gauge channel value produces an
error and leaves the gauge sequence unchanged, and the batcher loop
drops it (same state, no flush, no crash). -/
theorem C10_addMetric_dispatch :
    (∀ (p : libratoPayload) (x : gauge),
      addMetric p (Metric.g x) = Except.ok { Gauges := p.Gauges ++ [x] }) ∧
    (∀ (p : libratoPayload) (t : String),
      addMetric p (Metric.other t) = Except.error ("Unsupported metric: " ++ t)) ∧
    (∀ (w : Int) (st : BatcherState) (t : String),
      batcherStep w st (BatchEvent.arrival (Metric.other t)) = (st, none)) :=
  ⟨fun _ _ => rfl, fun _ _ => rfl, fun _ _ _ => rfl⟩

end Grotto
